import Mathlib

/-!
Verification development for the short-ID allocator of `back-end/api.py`.

The allocator keeps module-level state (`host_suffix`, `REPLICAS`, `KEY_LENGTH`,
`key_anchor`, `MAX`, `active_ids`, `deleted_ids`) and exposes `generate_key()`
(Allocate) and `delete_id()` (Release).  We embed that state as a structure and
the two operations as pure state transformers.  Python's arbitrary-precision
integers are `Int` (anchors can be `-1`), `set` becomes `Finset String`, and the
order-unspecified `set.pop()` is modelled by an explicit choice function that is
quantified over in the theorems.
-/

/-- `chars_and_nums = string.digits + string.ascii_lowercase` — the ten ASCII
digits (codes 48-57) followed by the twenty-six lowercase letters (97-122). -/
def chars_and_nums : List Char :=
  (List.range 10).map (fun i => Char.ofNat (48 + i))
    ++ (List.range 26).map (fun i => Char.ofNat (97 + i))

/-- `DIGIT_LENGTH = len(chars_and_nums)` (= 36). -/
def DIGIT_LENGTH : Nat := chars_and_nums.length

/-- `generate_anchor(host_suffix, KEY_LENGTH)` from api.py.  The source reads the
replica count from the module-level global `REPLICAS`; we pass it explicitly.
The Python `for i in range(REPLICAS): if host_suffix == str(i): ...` loop is the
first index whose decimal string equals `host_suffix`; if none matches the
function falls through to `return -1, 0`. -/
def generate_anchor (REPLICAS : Nat) (host_suffix : String) (KEY_LENGTH : Nat) : Int × Int :=
  match (List.range REPLICAS).find? (fun i => host_suffix == toString i) with
  | some i =>
      let ID_SPACE : Int := ((DIGIT_LENGTH ^ KEY_LENGTH / REPLICAS : Nat) : Int)
      let key_anchor : Int := ID_SPACE * i - 1
      let my_max : Int := key_anchor + ID_SPACE
      (key_anchor, my_max)
  | none => (-1, 0)

/-- The list comprehension in `generate_key`:
`[(key_anchor // pow(DIGIT_LENGTH, i)) % DIGIT_LENGTH for i in range(KEY_LENGTH - 1, -1, -1)]`.
Python's `//` and `%` on a positive modulus agree with `Int.ediv`/`Int.emod`. -/
def key_indices (key_anchor : Int) (KEY_LENGTH : Nat) : List Int :=
  (List.range KEY_LENGTH).reverse.map
    (fun i => key_anchor / (DIGIT_LENGTH : Int) ^ i % (DIGIT_LENGTH : Int))

/-- `key = ''.join(chars_and_nums[k] for k in key_indices)`.  Every `k` produced by
`key_indices` lies in `[0, 36)`, so the `getD` default is never consulted. -/
def encode (key_anchor : Int) (KEY_LENGTH : Nat) : String :=
  ⟨(key_indices key_anchor KEY_LENGTH).map (fun k => chars_and_nums.getD k.toNat ' ')⟩

/-- The module-level allocator state of api.py. -/
structure AllocState where
  REPLICAS : Nat
  host_suffix : String
  KEY_LENGTH : Nat
  key_anchor : Int
  MAX : Int
  active_ids : Finset String
  deleted_ids : Finset String
deriving DecidableEq

/-- `generate_key()` from api.py.  `choice` models Python's `set.pop()`, which
removes and returns an arbitrary element; theorems quantify over any `choice`
that returns a member of a non-empty set. -/
def generate_key (choice : Finset String → String) (s : AllocState) : String × AllocState :=
  if s.deleted_ids ≠ ∅ then
    let key := choice s.deleted_ids
    (key, { s with deleted_ids := s.deleted_ids.erase key,
                   active_ids := insert key s.active_ids })
  else
    let s1 :=
      if s.key_anchor ≥ s.MAX - 1 then
        let KL := s.KEY_LENGTH + 1
        let am := generate_anchor s.REPLICAS s.host_suffix KL
        { s with KEY_LENGTH := KL, key_anchor := am.1, MAX := am.2 }
      else s
    let ka := s1.key_anchor + 1
    let key := encode ka s1.KEY_LENGTH
    (key, { s1 with key_anchor := ka, active_ids := insert key s1.active_ids })

/-- `delete_id(del_id)` from api.py (the not-found branch only prints a message
and changes nothing). -/
def delete_id (del_id : String) (s : AllocState) : AllocState :=
  if del_id ∈ s.active_ids then
    { s with active_ids := s.active_ids.erase del_id,
             deleted_ids := insert del_id s.deleted_ids }
  else s

/-- The module-level initial state of api.py: `host_suffix = "0"`, `REPLICAS = 1`,
`KEY_LENGTH = 2`, `key_anchor, MAX = generate_anchor(host_suffix, KEY_LENGTH)`,
and both id sets empty. -/
def initState : AllocState :=
  { REPLICAS := 1
    host_suffix := "0"
    KEY_LENGTH := 2
    key_anchor := (generate_anchor 1 "0" 2).1
    MAX := (generate_anchor 1 "0" 2).2
    active_ids := ∅
    deleted_ids := ∅ }

/-- One external call to the allocator: either `generate_key()` (with its pop
choice) or `delete_id(k)`. -/
inductive Op where
  | alloc (choice : Finset String → String)
  | release (k : String)

/-- Run a sequence of calls, returning the final state together with the list of
keys minted along the fresh-integer (non-recycled) path, in order.  The fresh
path is taken exactly when `deleted_ids` is empty at the call. -/
def runOps : AllocState → List Op → AllocState × List String
  | s, [] => (s, [])
  | s, Op.alloc ch :: rest =>
      let r := generate_key ch s
      let t := runOps r.2 rest
      (t.1, (if s.deleted_ids = ∅ then [r.1] else []) ++ t.2)
  | s, Op.release k :: rest => runOps (delete_id k s) rest

/-- A deterministic, always-valid stand-in for `set.pop()`'s choice: the least
element in the sorted order of the set (used to build concrete witnesses). -/
def pickMin (d : Finset String) : String :=
  (d.sort (fun a b => a ≤ b)).headD ""

/-- Modelled from the spec: `Decode`, the left inverse of the fixed-width
base-36 encoding ("`Decode` is its left inverse … must exist for round-trip
testing"), is absent from the source.  Most-significant symbol first; each
symbol is looked up by its position in the alphabet. -/
def decode (s : String) : Int :=
  s.data.foldl (fun acc c => acc * (DIGIT_LENGTH : Int) + (chars_and_nums.indexOf c : Int)) 0

/-- `ID_SPACE` as computed inside `generate_anchor`: `pow(DIGIT_LENGTH, KEY_LENGTH) // REPLICAS`. -/
def ID_SPACE (REPLICAS KEY_LENGTH : Nat) : Nat := DIGIT_LENGTH ^ KEY_LENGTH / REPLICAS

/-- Modelled from the spec: `ComputeEpoch`'s ranges as the spec words them —
`anchor = blockSize * index`, `limit = anchor + blockSize` (§4.2).  Used only to
compare the source's `generate_anchor` against the spec's claimed ranges. -/
def ComputeEpoch_spec (count index L : Nat) : Int × Int :=
  ((ID_SPACE count L : Int) * index, (ID_SPACE count L : Int) * index + (ID_SPACE count L : Int))

/-- The half-open integer range `[key_anchor, my_max)` the partitioner hands to
the replica of index `i` (whose `host_suffix` is `str(i)`). -/
def anchorRange (count L i : Nat) : Finset Int :=
  Finset.Ico (generate_anchor count (toString i) L).1 (generate_anchor count (toString i) L).2

/-- A `set.pop()` choice is valid when it returns a member of any non-empty set. -/
def validChoice (ch : Finset String → String) : Prop :=
  ∀ d : Finset String, d ≠ ∅ → ch d ∈ d

/-- All pop choices appearing in a call sequence are valid. -/
def ValidOps (ops : List Op) : Prop :=
  ∀ ch, Op.alloc ch ∈ ops → validChoice ch

/-- Reachability invariant on the anchor bookkeeping of the single-replica
deployment hard-coded in api.py (`REPLICAS = 1`, `host_suffix = "0"`). -/
def AnchorInv (s : AllocState) : Prop :=
  s.REPLICAS = 1 ∧ s.host_suffix = "0" ∧ 2 ≤ s.KEY_LENGTH ∧
  s.MAX = (36 : Int) ^ s.KEY_LENGTH - 1 ∧ -1 ≤ s.key_anchor ∧ s.key_anchor ≤ s.MAX - 1

/-- A key was minted strictly later than the bookkeeping stamp `(L0, a0)`:
it encodes some in-range integer `a` at width `L`, lexicographically above. -/
def freshStampGt (L0 : Nat) (a0 : Int) (k : String) : Prop :=
  ∃ L a, k = encode a L ∧ 0 ≤ a ∧ a ≤ (36 : Int) ^ L - 2 ∧ (L0 < L ∨ (L0 = L ∧ a0 < a))

/-- The module state after `n` successive `generate_key()` calls (no deletes). -/
def afterCalls : Nat → AllocState
  | 0 => initState
  | n + 1 => (generate_key pickMin (afterCalls n)).2

/-- The key returned by the `n`-th `generate_key()` call (1-based), when only
`generate_key()` is ever called. -/
def keyOfCall (n : Nat) : String :=
  (generate_key pickMin (afterCalls (n - 1))).1

/-- The module state as api.py would build it with `REPLICAS = 0` (count zero):
`generate_anchor`'s loop body never runs and the sentinel `(-1, 0)` is stored. -/
def initStateZeroReplicas : AllocState :=
  { REPLICAS := 0
    host_suffix := "0"
    KEY_LENGTH := 2
    key_anchor := (generate_anchor 0 "0" 2).1
    MAX := (generate_anchor 0 "0" 2).2
    active_ids := ∅
    deleted_ids := ∅ }

/-- The module state as api.py would build it with `REPLICAS = 2` but a host
suffix `"5"` outside `[0, 2)` — an index outside `[0, count)`. -/
def initStateBadIndex : AllocState :=
  { REPLICAS := 2
    host_suffix := "5"
    KEY_LENGTH := 2
    key_anchor := (generate_anchor 2 "5" 2).1
    MAX := (generate_anchor 2 "5" 2).2
    active_ids := ∅
    deleted_ids := ∅ }

/-- The module state as api.py would build it for replica index 2 of 4
(`host_suffix = "2"`, `REPLICAS = 4`). -/
def initStateReplica2of4 : AllocState :=
  { REPLICAS := 4
    host_suffix := "2"
    KEY_LENGTH := 2
    key_anchor := (generate_anchor 4 "2" 2).1
    MAX := (generate_anchor 4 "2" 2).2
    active_ids := ∅
    deleted_ids := ∅ }

@[simp] lemma DIGIT_LENGTH_eq : DIGIT_LENGTH = 36 := rfl

/-! ### The codec: fixed-width base-36 encoding -/

lemma key_indices_zero (v : Int) : key_indices v 0 = [] := rfl

lemma key_indices_succ (v : Int) (L : Nat) :
    key_indices v (L + 1) = (v / (36 : Int) ^ L % 36) :: key_indices v L := by
  simp [key_indices, List.range_succ]

lemma encode_data (v : Int) (L : Nat) :
    (encode v L).data = (key_indices v L).map (fun k => chars_and_nums.getD k.toNat ' ') := rfl

lemma encode_length (v : Int) (L : Nat) : (encode v L).length = L := by
  simp [String.length, encode_data, key_indices]

lemma indexOf_getD (j : Nat) (h : j < 36) :
    chars_and_nums.indexOf (chars_and_nums.getD j ' ') = j := by
  revert j
  decide

/-- One step of positional arithmetic: splitting off the most significant digit. -/
lemma emod_pow_succ (v : Int) (L : Nat) :
    v % (36 : Int) ^ (L + 1) = (36 : Int) ^ L * (v / (36 : Int) ^ L % 36) + v % (36 : Int) ^ L := by
  have hb : (0 : Int) < (36 : Int) ^ L := by positivity
  have h36 : (0 : Int) < (36 : Int) := by norm_num
  have e1 : (36 : Int) ^ L * (v / (36 : Int) ^ L) + v % (36 : Int) ^ L = v :=
    Int.ediv_add_emod v ((36 : Int) ^ L)
  have e2 : (36 : Int) * (v / (36 : Int) ^ L / 36) + v / (36 : Int) ^ L % 36
      = v / (36 : Int) ^ L := Int.ediv_add_emod (v / (36 : Int) ^ L) 36
  have hv : v = ((36 : Int) ^ L * 36) * (v / (36 : Int) ^ L / 36)
      + ((36 : Int) ^ L * (v / (36 : Int) ^ L % 36) + v % (36 : Int) ^ L) := by
    nlinarith [e1, e2]
  have hr0 : 0 ≤ (36 : Int) ^ L * (v / (36 : Int) ^ L % 36) + v % (36 : Int) ^ L := by
    have := Int.emod_nonneg (v / (36 : Int) ^ L) (by norm_num : (36 : Int) ≠ 0)
    have := Int.emod_nonneg v (ne_of_gt hb)
    positivity
  have hrlt : (36 : Int) ^ L * (v / (36 : Int) ^ L % 36) + v % (36 : Int) ^ L
      < (36 : Int) ^ L * 36 := by
    have h1 : v / (36 : Int) ^ L % 36 < 36 := Int.emod_lt_of_pos _ h36
    have h2 : v % (36 : Int) ^ L < (36 : Int) ^ L := Int.emod_lt_of_pos v hb
    nlinarith
  calc v % (36 : Int) ^ (L + 1)
      = v % ((36 : Int) ^ L * 36) := by rw [pow_succ]
    _ = (((36 : Int) ^ L * 36) * (v / (36 : Int) ^ L / 36)
          + ((36 : Int) ^ L * (v / (36 : Int) ^ L % 36) + v % (36 : Int) ^ L))
          % ((36 : Int) ^ L * 36) := by rw [← hv]
    _ = ((36 : Int) ^ L * (v / (36 : Int) ^ L % 36) + v % (36 : Int) ^ L)
          % ((36 : Int) ^ L * 36) := by
          rw [add_comm, Int.add_mul_emod_self_left]
    _ = (36 : Int) ^ L * (v / (36 : Int) ^ L % 36) + v % (36 : Int) ^ L :=
          Int.emod_eq_of_lt hr0 hrlt

lemma decode_foldl (L : Nat) : ∀ (v acc : Int),
    ((key_indices v L).map (fun k => chars_and_nums.getD k.toNat ' ')).foldl
      (fun acc c => acc * (DIGIT_LENGTH : Int) + (chars_and_nums.indexOf c : Int)) acc
    = acc * (36 : Int) ^ L + v % (36 : Int) ^ L := by
  induction L with
  | zero =>
      intro v acc
      simp [key_indices_zero, Int.emod_one]
  | succ L ih =>
      intro v acc
      have hd0 : 0 ≤ v / (36 : Int) ^ L % 36 :=
        Int.emod_nonneg _ (by norm_num : (36 : Int) ≠ 0)
      have hdlt : v / (36 : Int) ^ L % 36 < 36 :=
        Int.emod_lt_of_pos _ (by norm_num : (0 : Int) < 36)
      have hnat : (v / (36 : Int) ^ L % 36).toNat < 36 := by omega
      rw [key_indices_succ, List.map_cons, List.foldl_cons, ih]
      rw [indexOf_getD _ hnat]
      have hcast : (((v / (36 : Int) ^ L % 36).toNat : Nat) : Int) = v / (36 : Int) ^ L % 36 :=
        Int.toNat_of_nonneg hd0
      rw [hcast, emod_pow_succ v L]
      simp only [DIGIT_LENGTH_eq]
      push_cast
      ring

/-- Round trip of the codec: decoding the minted fixed-width string recovers the
integer, for any value inside the representable range. -/
lemma decode_encode (v : Int) (L : Nat) (h0 : 0 ≤ v) (h1 : v < (36 : Int) ^ L) :
    decode (encode v L) = v := by
  have := decode_foldl L v 0
  simp only [decode, encode_data, this, zero_mul, zero_add]
  exact Int.emod_eq_of_lt h0 h1

/-- The codec is injective on the representable range `[0, 36^L)` for a fixed width. -/
lemma encode_inj {a b : Int} {L : Nat} (ha0 : 0 ≤ a) (ha1 : a < (36 : Int) ^ L)
    (hb0 : 0 ≤ b) (hb1 : b < (36 : Int) ^ L) (h : encode a L = encode b L) : a = b := by
  have := decode_encode a L ha0 ha1
  rw [h, decode_encode b L hb0 hb1] at this
  exact this.symm

/-- The codec silently wraps: it only ever sees the value modulo `36^L`. -/
lemma key_indices_mod (v : Int) (L : Nat) :
    key_indices (v % (36 : Int) ^ L) L = key_indices v L := by
  unfold key_indices
  refine List.map_congr_left ?_
  intro i hi
  simp only [DIGIT_LENGTH_eq, Nat.cast_ofNat]
  have hiL : i < L := by
    have := List.mem_reverse.mp hi
    exact List.mem_range.mp this
  have hdvd : ((36 : Int) ^ i) ∣ (36 : Int) ^ L := pow_dvd_pow _ (le_of_lt hiL)
  obtain ⟨c, hc⟩ := hdvd
  have hi0 : ((36 : Int) ^ i) ≠ 0 := by positivity
  have hdef : v % (36 : Int) ^ L = v + (36 : Int) ^ i * (-(c * (v / (36 : Int) ^ L))) := by
    rw [Int.emod_def, hc]
    ring
  rw [hdef, Int.add_mul_ediv_left _ _ hi0]
  have hcdvd : (36 : Int) ∣ c := by
    have hpow : (36 : Int) ^ i * c = (36 : Int) ^ i * (36 : Int) ^ (L - i) := by
      rw [← hc, ← pow_add]
      congr 1
      omega
    have hcc : c = (36 : Int) ^ (L - i) := mul_left_cancel₀ hi0 hpow
    rw [hcc]
    exact dvd_pow_self 36 (by omega)
  obtain ⟨c', hc'⟩ := hcdvd
  have : (-(c * (v / (36 : Int) ^ L))) = 36 * (-(c' * (v / (36 : Int) ^ L))) := by
    rw [hc']
    ring
  rw [this, Int.add_mul_emod_self_left]

lemma encode_mod (v : Int) (L : Nat) : encode (v % (36 : Int) ^ L) L = encode v L := by
  unfold encode
  rw [key_indices_mod]

/-! ### Decimal rendering of replica indices

`generate_anchor` matches `host_suffix` against `str(i)`; to reason about a
replica with index `i` we need that `Nat`'s decimal rendering is injective. -/

lemma toDigitsCore_ten_eq (fuel : Nat) : ∀ (n : Nat) (ds : List Char), n ≠ 0 → n ≤ fuel →
    Nat.toDigitsCore 10 fuel n ds
      = ((Nat.digits 10 n).map Nat.digitChar).reverse ++ ds := by
  induction fuel with
  | zero => intro n ds hn hf; omega
  | succ fuel ih =>
      intro n ds hn hf
      have hdig : Nat.digits 10 n = n % 10 :: Nat.digits 10 (n / 10) :=
        Nat.digits_def' (by norm_num) (Nat.pos_of_ne_zero hn)
      rw [Nat.toDigitsCore]
      by_cases hq : n / 10 = 0
      · simp [hq, hdig]
      · have hle : n / 10 ≤ fuel := by
          have := Nat.div_lt_self (Nat.pos_of_ne_zero hn) (by norm_num : 1 < 10)
          omega
        simp only [hq, if_false]
        rw [ih (n / 10) _ hq hle, hdig]
        simp

lemma repr_eq_digits (n : Nat) (hn : n ≠ 0) :
    Nat.repr n = (((Nat.digits 10 n).map Nat.digitChar).reverse).asString := by
  unfold Nat.repr Nat.toDigits
  rw [toDigitsCore_ten_eq (n + 1) n [] hn (by omega), List.append_nil]

lemma digitChar_inj : ∀ a, a < 10 → ∀ b, b < 10 → Nat.digitChar a = Nat.digitChar b → a = b := by
  decide

lemma map_digitChar_inj : ∀ (l1 l2 : List Nat), (∀ x ∈ l1, x < 10) → (∀ x ∈ l2, x < 10) →
    l1.map Nat.digitChar = l2.map Nat.digitChar → l1 = l2 := by
  intro l1
  induction l1 with
  | nil => intro l2 _ _ h; cases l2 <;> simp_all
  | cons a l ih =>
      intro l2 h1 h2 h
      cases l2 with
      | nil => simp_all
      | cons b l' =>
          simp only [List.map_cons, List.cons.injEq] at h
          have hab : a = b :=
            digitChar_inj a (h1 a (by simp)) b (h2 b (by simp)) h.1
          have : l = l' := by
            refine ih l' (fun x hx => h1 x (by simp [hx])) (fun x hx => h2 x (by simp [hx])) h.2
          simp [hab, this]

lemma nat_repr_inj {m n : Nat} (h : Nat.repr m = Nat.repr n) : m = n := by
  rcases eq_or_ne m 0 with rfl | hm <;> rcases eq_or_ne n 0 with rfl | hn
  · rfl
  · exfalso
    rw [repr_eq_digits n hn] at h
    have hdata : ['0'] = ((Nat.digits 10 n).map Nat.digitChar).reverse :=
      congrArg String.data h
    have hrev : (Nat.digits 10 n).map Nat.digitChar = ['0'] := by
      have := congrArg List.reverse hdata
      simpa using this.symm
    rcases hd : Nat.digits 10 n with _ | ⟨d, tl⟩
    · simp [hd] at hrev
    · rw [hd] at hrev
      rcases tl with _ | ⟨d', tl'⟩
      · simp only [List.map_cons, List.map_nil, List.cons.injEq] at hrev
        have hd10 : d < 10 := @Nat.digits_lt_base 10 n d (by norm_num) (by simp [hd])
        have : d = 0 := digitChar_inj d hd10 0 (by norm_num) (hrev.1.trans (by decide))
        have hofd := Nat.ofDigits_digits 10 n
        rw [hd, this] at hofd
        simp [Nat.ofDigits] at hofd
        omega
      · simp at hrev
  · exfalso
    rw [repr_eq_digits m hm] at h
    have hdata : ((Nat.digits 10 m).map Nat.digitChar).reverse = ['0'] :=
      congrArg String.data h
    have hrev : (Nat.digits 10 m).map Nat.digitChar = ['0'] := by
      have := congrArg List.reverse hdata
      simpa using this
    rcases hd : Nat.digits 10 m with _ | ⟨d, tl⟩
    · simp [hd] at hrev
    · rw [hd] at hrev
      rcases tl with _ | ⟨d', tl'⟩
      · simp only [List.map_cons, List.map_nil, List.cons.injEq] at hrev
        have hd10 : d < 10 := @Nat.digits_lt_base 10 m d (by norm_num) (by simp [hd])
        have : d = 0 := digitChar_inj d hd10 0 (by norm_num) (hrev.1.trans (by decide))
        have hofd := Nat.ofDigits_digits 10 m
        rw [hd, this] at hofd
        simp [Nat.ofDigits] at hofd
        omega
      · simp at hrev
  · rw [repr_eq_digits m hm, repr_eq_digits n hn] at h
    have hdata := congrArg String.data h
    have hrev : (Nat.digits 10 m).map Nat.digitChar = (Nat.digits 10 n).map Nat.digitChar := by
      have : ((Nat.digits 10 m).map Nat.digitChar).reverse
          = ((Nat.digits 10 n).map Nat.digitChar).reverse := hdata
      have := congrArg List.reverse this
      simpa using this
    have hdigs : Nat.digits 10 m = Nat.digits 10 n :=
      map_digitChar_inj _ _ (fun x hx => Nat.digits_lt_base (by norm_num) hx)
        (fun x hx => Nat.digits_lt_base (by norm_num) hx) hrev
    have := congrArg (Nat.ofDigits 10) hdigs
    rwa [Nat.ofDigits_digits, Nat.ofDigits_digits] at this

lemma toString_nat_inj {m n : Nat} (h : toString m = toString n) : m = n :=
  nat_repr_inj h

/-- The `for i in range(REPLICAS)` search in `generate_anchor` finds exactly the
replica's own index when `host_suffix = str(i)` and `i < REPLICAS`. -/
lemma find_range_toString : ∀ (count i : Nat), i < count →
    (List.range count).find? (fun j => toString i == toString j) = some i := by
  intro count
  induction count with
  | zero => intro i hi; omega
  | succ c ih =>
      intro i hi
      rw [List.range_succ, List.find?_append]
      rcases Nat.lt_or_ge i c with h | h
      · rw [ih i h]
        rfl
      · have hic : i = c := by omega
        subst hic
        have hnone : (List.range i).find? (fun j => toString i == toString j) = none := by
          rw [List.find?_eq_none]
          intro x hx hbeq
          have hx' : x < i := List.mem_range.mp hx
          have : i = x := toString_nat_inj (by simpa using hbeq)
          omega
        rw [hnone]
        simp [List.find?]

/-- Closed form of `generate_anchor` for a matching replica index: the pair is
`(ID_SPACE * i - 1, ID_SPACE * i - 1 + ID_SPACE)`. -/
lemma generate_anchor_eq (count i L : Nat) (hi : i < count) :
    generate_anchor count (toString i) L
      = ((ID_SPACE count L : Int) * i - 1,
         (ID_SPACE count L : Int) * i - 1 + (ID_SPACE count L : Int)) := by
  unfold generate_anchor
  rw [find_range_toString count i hi]
  rfl

/-- If no index in `[0, REPLICAS)` renders to `host_suffix`, `generate_anchor`
returns the sentinel `(-1, 0)`. -/
lemma generate_anchor_sentinel (count L : Nat) (host : String)
    (h : ∀ i < count, host ≠ toString i) : generate_anchor count host L = (-1, 0) := by
  unfold generate_anchor
  have hnone : (List.range count).find? (fun i => host == toString i) = none := by
    rw [List.find?_eq_none]
    intro x hx hbeq
    exact h x (List.mem_range.mp hx) (by simpa using hbeq)
  rw [hnone]



/-! ### Step lemmas for `generate_key` and `delete_id` -/

lemma generate_key_recycled (ch : Finset String → String) (s : AllocState)
    (h : s.deleted_ids ≠ ∅) :
    generate_key ch s
      = (ch s.deleted_ids,
         { s with deleted_ids := s.deleted_ids.erase (ch s.deleted_ids),
                  active_ids := insert (ch s.deleted_ids) s.active_ids }) := by
  simp [generate_key, h]

lemma generate_key_fresh_no_expand (ch : Finset String → String) (s : AllocState)
    (h : s.deleted_ids = ∅) (h2 : ¬ s.MAX - 1 ≤ s.key_anchor) :
    generate_key ch s
      = (encode (s.key_anchor + 1) s.KEY_LENGTH,
         { s with key_anchor := s.key_anchor + 1,
                  active_ids := insert (encode (s.key_anchor + 1) s.KEY_LENGTH) s.active_ids }) := by
  simp [generate_key, h, ge_iff_le, h2]

lemma generate_key_fresh_expand (ch : Finset String → String) (s : AllocState)
    (h : s.deleted_ids = ∅) (h2 : s.MAX - 1 ≤ s.key_anchor) :
    generate_key ch s
      = (encode ((generate_anchor s.REPLICAS s.host_suffix (s.KEY_LENGTH + 1)).1 + 1)
           (s.KEY_LENGTH + 1),
         { s with KEY_LENGTH := s.KEY_LENGTH + 1,
                  key_anchor := (generate_anchor s.REPLICAS s.host_suffix (s.KEY_LENGTH + 1)).1 + 1,
                  MAX := (generate_anchor s.REPLICAS s.host_suffix (s.KEY_LENGTH + 1)).2,
                  active_ids :=
                    insert (encode ((generate_anchor s.REPLICAS s.host_suffix (s.KEY_LENGTH + 1)).1 + 1)
                      (s.KEY_LENGTH + 1)) s.active_ids }) := by
  simp [generate_key, h, ge_iff_le, h2]

lemma delete_id_mem (k : String) (s : AllocState) (h : k ∈ s.active_ids) :
    delete_id k s = { s with active_ids := s.active_ids.erase k,
                             deleted_ids := insert k s.deleted_ids } := by
  simp [delete_id, h]

lemma delete_id_fields (k : String) (s : AllocState) :
    (delete_id k s).REPLICAS = s.REPLICAS ∧ (delete_id k s).host_suffix = s.host_suffix ∧
    (delete_id k s).KEY_LENGTH = s.KEY_LENGTH ∧ (delete_id k s).key_anchor = s.key_anchor ∧
    (delete_id k s).MAX = s.MAX := by
  unfold delete_id
  split <;> exact ⟨rfl, rfl, rfl, rfl, rfl⟩

lemma generate_key_recycled_fields (ch : Finset String → String) (s : AllocState)
    (h : s.deleted_ids ≠ ∅) :
    (generate_key ch s).2.REPLICAS = s.REPLICAS ∧
    (generate_key ch s).2.host_suffix = s.host_suffix ∧
    (generate_key ch s).2.KEY_LENGTH = s.KEY_LENGTH ∧
    (generate_key ch s).2.key_anchor = s.key_anchor ∧
    (generate_key ch s).2.MAX = s.MAX := by
  rw [generate_key_recycled ch s h]
  exact ⟨rfl, rfl, rfl, rfl, rfl⟩

lemma runOps_nil (s : AllocState) : runOps s [] = (s, []) := rfl

lemma runOps_alloc (s : AllocState) (ch : Finset String → String) (rest : List Op) :
    runOps s (Op.alloc ch :: rest)
      = ((runOps (generate_key ch s).2 rest).1,
         (if s.deleted_ids = ∅ then [(generate_key ch s).1] else [])
           ++ (runOps (generate_key ch s).2 rest).2) := rfl

lemma runOps_release (s : AllocState) (k : String) (rest : List Op) :
    runOps s (Op.release k :: rest) = runOps (delete_id k s) rest := rfl

/-! ### The single-replica anchor invariant -/

lemma generate_anchor_one (L : Nat) : generate_anchor 1 "0" L = (-1, (36 : Int) ^ L - 1) := by
  have h := generate_anchor_eq 1 0 L (by norm_num)
  rw [show toString (0 : Nat) = "0" from rfl] at h
  rw [h]
  simp only [ID_SPACE, DIGIT_LENGTH_eq, Nat.div_one, Prod.mk.injEq]
  push_cast
  constructor <;> ring

lemma anchorInv_init : AnchorInv initState :=
  ⟨rfl, rfl, by decide, by decide, by decide, by decide⟩

lemma anchorInv_delete (k : String) (s : AllocState) (h : AnchorInv s) :
    AnchorInv (delete_id k s) := by
  obtain ⟨h1, h2, h3, h4, h5⟩ := delete_id_fields k s
  unfold AnchorInv at h ⊢
  rw [h1, h2, h3, h4, h5]
  exact h

lemma anchorInv_alloc (ch : Finset String → String) (s : AllocState) (h : AnchorInv s) :
    AnchorInv (generate_key ch s).2 := by
  by_cases hdel : s.deleted_ids = ∅
  · obtain ⟨h1, h2, h3, h4, h5, h6⟩ := h
    by_cases hexp : s.MAX - 1 ≤ s.key_anchor
    · rw [generate_key_fresh_expand ch s hdel hexp, h1, h2, generate_anchor_one]
      refine ⟨rfl, rfl, ?_, rfl, ?_, ?_⟩
      · show 2 ≤ s.KEY_LENGTH + 1
        omega
      · show (-1 : Int) ≤ -1 + 1
        norm_num
      · show -1 + 1 ≤ (36 : Int) ^ (s.KEY_LENGTH + 1) - 1 - 1
        have h36 : (36 : Int) ≤ 36 ^ (s.KEY_LENGTH + 1) := le_self_pow₀ (by norm_num) (by omega)
        omega
    · rw [generate_key_fresh_no_expand ch s hdel hexp]
      refine ⟨h1, h2, h3, h4, ?_, ?_⟩
      · show (-1 : Int) ≤ s.key_anchor + 1
        omega
      · show s.key_anchor + 1 ≤ s.MAX - 1
        omega
  · obtain ⟨h1, h2, h3, h4, h5⟩ := generate_key_recycled_fields ch s hdel
    unfold AnchorInv at h ⊢
    rw [h1, h2, h3, h4, h5]
    exact h

/-! ### Fresh mints stamp strictly increasing bookkeeping -/

lemma encode_eq_width {a b : Int} {L M : Nat} (h : encode a L = encode b M) : L = M := by
  have := congrArg String.length h
  rwa [encode_length, encode_length] at this

lemma fresh_mint_char (ch : Finset String → String) (s : AllocState)
    (hInv : AnchorInv s) (hdel : s.deleted_ids = ∅) :
    (generate_key ch s).1
        = encode (generate_key ch s).2.key_anchor (generate_key ch s).2.KEY_LENGTH
    ∧ 0 ≤ (generate_key ch s).2.key_anchor
    ∧ (generate_key ch s).2.key_anchor ≤ (36 : Int) ^ (generate_key ch s).2.KEY_LENGTH - 2
    ∧ (s.KEY_LENGTH < (generate_key ch s).2.KEY_LENGTH
        ∨ (s.KEY_LENGTH = (generate_key ch s).2.KEY_LENGTH
            ∧ s.key_anchor < (generate_key ch s).2.key_anchor)) := by
  obtain ⟨h1, h2, h3, h4, h5, h6⟩ := hInv
  by_cases hexp : s.MAX - 1 ≤ s.key_anchor
  · rw [generate_key_fresh_expand ch s hdel hexp, h1, h2, generate_anchor_one]
    refine ⟨rfl, ?_, ?_, Or.inl ?_⟩
    · show (0 : Int) ≤ -1 + 1
      norm_num
    · show -1 + 1 ≤ (36 : Int) ^ (s.KEY_LENGTH + 1) - 2
      have h36 : (36 : Int) ≤ 36 ^ (s.KEY_LENGTH + 1) := le_self_pow₀ (by norm_num) (by omega)
      omega
    · show s.KEY_LENGTH < s.KEY_LENGTH + 1
      omega
  · rw [generate_key_fresh_no_expand ch s hdel hexp]
    refine ⟨rfl, ?_, ?_, Or.inr ⟨rfl, ?_⟩⟩
    · show (0 : Int) ≤ s.key_anchor + 1
      omega
    · show s.key_anchor + 1 ≤ (36 : Int) ^ s.KEY_LENGTH - 2
      rw [h4] at hexp
      omega
    · show s.key_anchor < s.key_anchor + 1
      omega

lemma runOps_fresh_spec : ∀ (ops : List Op) (s : AllocState), AnchorInv s →
    (runOps s ops).2.Nodup
    ∧ ∀ k ∈ (runOps s ops).2, freshStampGt s.KEY_LENGTH s.key_anchor k := by
  intro ops
  induction ops with
  | nil =>
      intro s _
      simp [runOps_nil]
  | cons op rest ih =>
      intro s hInv
      cases op with
      | release k =>
          rw [runOps_release]
          obtain ⟨_, _, hKL, hka, _⟩ := delete_id_fields k s
          have hrec := ih (delete_id k s) (anchorInv_delete k s hInv)
          rw [hKL, hka] at hrec
          exact hrec
      | alloc ch =>
          rw [runOps_alloc]
          have hInv' := anchorInv_alloc ch s hInv
          have hrec := ih (generate_key ch s).2 hInv'
          by_cases hdel : s.deleted_ids = ∅
          · obtain ⟨hk₀, ha0, ha1, hstamp⟩ := fresh_mint_char ch s hInv hdel
            simp only [hdel, if_pos, List.singleton_append]
            constructor
            · rw [List.nodup_cons]
              refine ⟨?_, hrec.1⟩
              intro hmem
              obtain ⟨L, a, heq, hb0, hb1, hlex⟩ := hrec.2 _ hmem
              rw [hk₀] at heq
              have hw : (generate_key ch s).2.KEY_LENGTH = L := encode_eq_width heq
              rw [← hw] at hb1 hlex heq
              have hpow : (0 : Int) < 36 ^ (generate_key ch s).2.KEY_LENGTH := by positivity
              have : (generate_key ch s).2.key_anchor = a :=
                encode_inj ha0 (by omega) hb0 (by omega) heq
              omega
            · intro k' hk'
              rcases List.mem_cons.mp hk' with rfl | hmem
              · exact ⟨_, _, hk₀, ha0, ha1, hstamp⟩
              · obtain ⟨L, a, heq, hb0, hb1, hlex⟩ := hrec.2 _ hmem
                refine ⟨L, a, heq, hb0, hb1, ?_⟩
                rcases hstamp with hL | ⟨hLe, hA⟩
                · rcases hlex with hL2 | ⟨hLe2, _⟩
                  · exact Or.inl (by omega)
                  · exact Or.inl (by omega)
                · rcases hlex with hL2 | ⟨hLe2, hA2⟩
                  · exact Or.inl (by omega)
                  · exact Or.inr ⟨by omega, by omega⟩
          · obtain ⟨_, _, hKL, hka, _⟩ := generate_key_recycled_fields ch s hdel
            rw [hKL, hka] at hrec
            simp only [hdel, if_neg, List.nil_append]
            simpa using hrec

/-! ### Key-length bookkeeping (for length monotonicity) -/

lemma delete_id_not_mem (k : String) (s : AllocState) (h : k ∉ s.active_ids) :
    delete_id k s = s := by
  simp [delete_id, h]

lemma KEY_LENGTH_alloc (ch : Finset String → String) (s : AllocState) :
    (generate_key ch s).2.KEY_LENGTH
      = if s.deleted_ids = ∅ ∧ s.MAX - 1 ≤ s.key_anchor then s.KEY_LENGTH + 1
        else s.KEY_LENGTH := by
  by_cases hdel : s.deleted_ids = ∅
  · by_cases hexp : s.MAX - 1 ≤ s.key_anchor
    · rw [generate_key_fresh_expand ch s hdel hexp, if_pos ⟨hdel, hexp⟩]
    · rw [generate_key_fresh_no_expand ch s hdel hexp, if_neg (by tauto)]
  · rw [(generate_key_recycled_fields ch s hdel).2.2.1, if_neg (by tauto)]

lemma KEY_LENGTH_alloc_ge (ch : Finset String → String) (s : AllocState) :
    s.KEY_LENGTH ≤ (generate_key ch s).2.KEY_LENGTH := by
  rw [KEY_LENGTH_alloc]
  split <;> omega

lemma KEY_LENGTH_runOps_mono : ∀ (ops : List Op) (s : AllocState),
    s.KEY_LENGTH ≤ (runOps s ops).1.KEY_LENGTH := by
  intro ops
  induction ops with
  | nil => intro s; simp [runOps_nil]
  | cons op rest ih =>
      intro s
      cases op with
      | alloc ch =>
          rw [runOps_alloc]
          exact le_trans (KEY_LENGTH_alloc_ge ch s) (ih (generate_key ch s).2)
      | release k =>
          rw [runOps_release]
          have h := ih (delete_id k s)
          rwa [(delete_id_fields k s).2.2.1] at h

/-! ### Disjointness of `active_ids` and `deleted_ids` -/

lemma active_ids_alloc (ch : Finset String → String) (s : AllocState) :
    (generate_key ch s).2.active_ids = insert (generate_key ch s).1 s.active_ids := by
  by_cases hdel : s.deleted_ids = ∅
  · by_cases hexp : s.MAX - 1 ≤ s.key_anchor
    · rw [generate_key_fresh_expand ch s hdel hexp]
    · rw [generate_key_fresh_no_expand ch s hdel hexp]
  · rw [generate_key_recycled ch s hdel]

lemma deleted_ids_alloc_fresh (ch : Finset String → String) (s : AllocState)
    (hdel : s.deleted_ids = ∅) : (generate_key ch s).2.deleted_ids = ∅ := by
  by_cases hexp : s.MAX - 1 ≤ s.key_anchor
  · rw [generate_key_fresh_expand ch s hdel hexp]
    exact hdel
  · rw [generate_key_fresh_no_expand ch s hdel hexp]
    exact hdel

lemma disjoint_step_alloc (ch : Finset String → String) (s : AllocState)
    (h : Disjoint s.active_ids s.deleted_ids) :
    Disjoint (generate_key ch s).2.active_ids (generate_key ch s).2.deleted_ids := by
  by_cases hdel : s.deleted_ids = ∅
  · rw [deleted_ids_alloc_fresh ch s hdel]
    exact Finset.disjoint_empty_right _
  · rw [generate_key_recycled ch s hdel, Finset.disjoint_left]
    intro x hx hx'
    rcases Finset.mem_insert.mp hx with rfl | hxa
    · exact (Finset.not_mem_erase _ _) hx'
    · exact (Finset.disjoint_left.mp h hxa) (Finset.mem_of_mem_erase hx')

lemma disjoint_step_delete (k : String) (s : AllocState)
    (h : Disjoint s.active_ids s.deleted_ids) :
    Disjoint (delete_id k s).active_ids (delete_id k s).deleted_ids := by
  by_cases hmem : k ∈ s.active_ids
  · rw [delete_id_mem k s hmem, Finset.disjoint_left]
    intro x hx hx'
    have hxa : x ∈ s.active_ids := Finset.mem_of_mem_erase hx
    have hxk : x ≠ k := Finset.ne_of_mem_erase hx
    rcases Finset.mem_insert.mp hx' with rfl | hxd
    · exact hxk rfl
    · exact (Finset.disjoint_left.mp h hxa) hxd
  · rwa [delete_id_not_mem k s hmem]

lemma runOps_disjoint : ∀ (ops : List Op) (s : AllocState),
    Disjoint s.active_ids s.deleted_ids →
    Disjoint (runOps s ops).1.active_ids (runOps s ops).1.deleted_ids := by
  intro ops
  induction ops with
  | nil => intro s h; simpa [runOps_nil] using h
  | cons op rest ih =>
      intro s h
      cases op with
      | alloc ch =>
          rw [runOps_alloc]
          exact ih _ (disjoint_step_alloc ch s h)
      | release k =>
          rw [runOps_release]
          exact ih _ (disjoint_step_delete k s h)

/-! ### The concrete single-replica trajectory -/

lemma afterCalls_fields : ∀ n : Nat, n ≤ 1295 →
    (afterCalls n).REPLICAS = 1 ∧ (afterCalls n).host_suffix = "0" ∧
    (afterCalls n).KEY_LENGTH = 2 ∧ (afterCalls n).MAX = 1295 ∧
    (afterCalls n).key_anchor = (n : Int) - 1 ∧ (afterCalls n).deleted_ids = ∅ := by
  intro n
  induction n with
  | zero =>
      intro _
      exact ⟨rfl, rfl, rfl, by decide, by decide, rfl⟩
  | succ n ih =>
      intro hn
      obtain ⟨h1, h2, h3, h4, h5, h6⟩ := ih (by omega)
      have hexp : ¬ ((afterCalls n).MAX - 1 ≤ (afterCalls n).key_anchor) := by
        rw [h4, h5]
        have : (n : Int) ≤ 1294 := by exact_mod_cast (by omega : n ≤ 1294)
        omega
      rw [show afterCalls (n + 1) = (generate_key pickMin (afterCalls n)).2 from rfl,
          generate_key_fresh_no_expand pickMin (afterCalls n) h6 hexp]
      refine ⟨h1, h2, h3, h4, ?_, h6⟩
      show (afterCalls n).key_anchor + 1 = ((n : Int) + 1) - 1
      rw [h5]
      ring

lemma afterCalls_succ (n : Nat) :
    afterCalls (n + 1) = (generate_key pickMin (afterCalls n)).2 := rfl

lemma keyOfCall_eq (n : Nat) :
    keyOfCall n = (generate_key pickMin (afterCalls (n - 1))).1 := rfl

lemma fields_alloc_fresh_expand (ch : Finset String → String) (s : AllocState)
    (hdel : s.deleted_ids = ∅) (hexp : s.MAX - 1 ≤ s.key_anchor) :
    (generate_key ch s).1
        = encode ((generate_anchor s.REPLICAS s.host_suffix (s.KEY_LENGTH + 1)).1 + 1)
            (s.KEY_LENGTH + 1)
    ∧ (generate_key ch s).2.KEY_LENGTH = s.KEY_LENGTH + 1
    ∧ (generate_key ch s).2.key_anchor
        = (generate_anchor s.REPLICAS s.host_suffix (s.KEY_LENGTH + 1)).1 + 1
    ∧ (generate_key ch s).2.MAX = (generate_anchor s.REPLICAS s.host_suffix (s.KEY_LENGTH + 1)).2
    ∧ (generate_key ch s).2.deleted_ids = s.deleted_ids := by
  rw [generate_key_fresh_expand ch s hdel hexp]
  exact ⟨rfl, rfl, rfl, rfl, rfl⟩

lemma fields_alloc_fresh_no_expand (ch : Finset String → String) (s : AllocState)
    (hdel : s.deleted_ids = ∅) (hexp : ¬ s.MAX - 1 ≤ s.key_anchor) :
    (generate_key ch s).1 = encode (s.key_anchor + 1) s.KEY_LENGTH
    ∧ (generate_key ch s).2.KEY_LENGTH = s.KEY_LENGTH
    ∧ (generate_key ch s).2.key_anchor = s.key_anchor + 1
    ∧ (generate_key ch s).2.MAX = s.MAX
    ∧ (generate_key ch s).2.deleted_ids = s.deleted_ids := by
  rw [generate_key_fresh_no_expand ch s hdel hexp]
  exact ⟨rfl, rfl, rfl, rfl, rfl⟩

lemma expansion_at_1296 :
    keyOfCall 1296 = "000" ∧ (afterCalls 1296).KEY_LENGTH = 3 ∧
    (afterCalls 1296).key_anchor = 0 ∧ (afterCalls 1296).MAX = 46655 ∧
    (afterCalls 1296).deleted_ids = ∅ := by
  obtain ⟨h1, h2, h3, h4, h5, h6⟩ := afterCalls_fields 1295 (by omega)
  have hexp : (afterCalls 1295).MAX - 1 ≤ (afterCalls 1295).key_anchor := by
    rw [h4, h5]
    norm_num
  obtain ⟨hk, hKL, hka, hM, hdel⟩ :=
    fields_alloc_fresh_expand pickMin (afterCalls 1295) h6 hexp
  rw [h1, h2, h3] at hka hM
  rw [h1, h2, h3] at hk
  rw [h3] at hKL
  have ha : generate_anchor 1 "0" (2 + 1) = (-1, 46655) := by decide
  rw [ha] at hk hka hM
  have h96 : afterCalls 1296 = (generate_key pickMin (afterCalls 1295)).2 := by
    rw [show (1296 : Nat) = 1295 + 1 from rfl, afterCalls_succ]
  refine ⟨?_, ?_, ?_, ?_, ?_⟩
  · rw [keyOfCall_eq, show (1296 : Nat) - 1 = 1295 from rfl, hk]
    decide
  · rw [h96, hKL]
  · rw [h96, hka]
    norm_num
  · rw [h96, hM]
  · rw [h96, hdel, h6]

lemma key_of_call_1297 : keyOfCall 1297 = "001" := by
  obtain ⟨hk96, hKL, hka, hM, hdel⟩ := expansion_at_1296
  have hexp : ¬ ((afterCalls 1296).MAX - 1 ≤ (afterCalls 1296).key_anchor) := by
    rw [hM, hka]
    norm_num
  obtain ⟨hk, _, _, _, _⟩ := fields_alloc_fresh_no_expand pickMin (afterCalls 1296) hdel hexp
  rw [keyOfCall_eq, show (1297 : Nat) - 1 = 1296 from rfl, hk, hka, hKL]
  decide

/-! ### `pickMin` is a valid pop choice -/

lemma pickMin_mem (d : Finset String) (h : d ≠ ∅) : pickMin d ∈ d := by
  rcases hl : d.sort (fun a b => a ≤ b) with _ | ⟨a, tl⟩
  · exfalso
    apply h
    have hcard : d.card = 0 := by
      rw [← Finset.length_sort (fun a b : String => a ≤ b), hl]
      rfl
    exact Finset.card_eq_zero.mp hcard
  · have hp : pickMin d = a := by
      unfold pickMin
      rw [hl]
      rfl
    rw [hp]
    have ha : a ∈ d.sort (fun a b => a ≤ b) := by
      rw [hl]
      exact List.mem_cons_self a tl
    exact (Finset.mem_sort _).mp ha

lemma pickMin_valid : validChoice pickMin := fun d hd => pickMin_mem d hd

/-! ### The partition of the integer space across replicas -/

lemma anchorRange_eq (count L i : Nat) (hi : i < count) :
    anchorRange count L i
      = Finset.Ico ((ID_SPACE count L : Int) * i - 1)
          ((ID_SPACE count L : Int) * ((i : Int) + 1) - 1) := by
  unfold anchorRange
  rw [generate_anchor_eq count i L hi]
  congr 1
  ring

lemma anchorRange_disjoint (count L : Nat) : ∀ i j : Nat, i < count → j < count → i ≠ j →
    Disjoint (anchorRange count L i) (anchorRange count L j) := by
  have key : ∀ i j : Nat, i < count → j < count → i < j →
      Disjoint (anchorRange count L i) (anchorRange count L j) := by
    intro i j hi hj hij
    rw [anchorRange_eq count L i hi, anchorRange_eq count L j hj, Finset.disjoint_left]
    intro x hx hx'
    rw [Finset.mem_Ico] at hx hx'
    have hB : (0 : Int) ≤ (ID_SPACE count L : Int) := by positivity
    have hmul : (ID_SPACE count L : Int) * ((i : Int) + 1) ≤ (ID_SPACE count L : Int) * j := by
      apply mul_le_mul_of_nonneg_left _ hB
      exact_mod_cast (by omega : i + 1 ≤ j)
    linarith [hx.2, hx'.1]
  intro i j hi hj hne
  rcases Nat.lt_or_ge i j with h | h
  · exact key i j hi hj h
  · exact (key j i hj hi (by omega)).symm

lemma anchorRange_union (count L : Nat) : ∀ k, k ≤ count →
    (Finset.range k).biUnion (fun i => anchorRange count L i)
      = Finset.Ico (-1 : Int) ((ID_SPACE count L : Int) * k - 1) := by
  intro k
  induction k with
  | zero =>
      intro _
      simp
  | succ k ih =>
      intro hk
      rw [Finset.range_succ, Finset.biUnion_insert, ih (by omega),
          anchorRange_eq count L k (by omega)]
      have hB : (0 : Int) ≤ (ID_SPACE count L : Int) := by positivity
      have hBk : (0 : Int) ≤ (ID_SPACE count L : Int) * k := by positivity
      have h1 : (-1 : Int) ≤ (ID_SPACE count L : Int) * k - 1 := by linarith
      have h2 : (ID_SPACE count L : Int) * k - 1
          ≤ (ID_SPACE count L : Int) * ((k : Int) + 1) - 1 := by
        have : (ID_SPACE count L : Int) * k ≤ (ID_SPACE count L : Int) * ((k : Int) + 1) := by
          apply mul_le_mul_of_nonneg_left _ hB
          linarith
        linarith
      rw [Finset.union_comm, Finset.Ico_union_Ico_eq_Ico h1 h2]
      congr 1

/-! ## Claims -/

/-- C1 (counterexample): with `count=1, index=0` and starting length 2, the
1297th `generate_key()` call does **not** return `"000"` — it returns `"001"`,
and the expansion to length 3 has already happened at call 1296 (the source's
`key_anchor = -1` offset together with the `key_anchor >= MAX - 1` test spends
only 1295 fresh integers at length 2, not 1296). -/
theorem C1_counterexample :
    keyOfCall 1297 = "001" ∧ ("001" : String) ≠ "000"
      ∧ (afterCalls 1296).KEY_LENGTH = 3 :=
  ⟨key_of_call_1297, by decide, expansion_at_1296.2.1⟩

/-- C1 (amended): with `count=1, index=0` and starting length 2, the first
`generate_key()` call returns `"00"`; after 1295 calls with no releases the
length is still 2, and the 1296th call triggers the expansion to length 3 and
returns `"000"`. -/
theorem C1_first_key_and_expansion :
    keyOfCall 1 = "00" ∧ (afterCalls 1295).KEY_LENGTH = 2
      ∧ (afterCalls 1296).KEY_LENGTH = 3 ∧ keyOfCall 1296 = "000" :=
  ⟨by rw [keyOfCall_eq]; decide, (afterCalls_fields 1295 le_rfl).2.2.1,
   expansion_at_1296.2.1, expansion_at_1296.1⟩

/-- C2 (counterexample): already for `count = 1`, `length = 2` the partitioner's
range is `[-1, 1295)`, not `[0, 36^2)`: the union over all replica indices is
not `[0, 36^length)`. -/
theorem C2_counterexample :
    (Finset.range 1).biUnion (fun i => anchorRange 1 2 i)
      ≠ Finset.Ico (0 : Int) ((36 : Int) ^ 2) := by
  intro h
  have hmem : (-1 : Int) ∈ (Finset.range 1).biUnion (fun i => anchorRange 1 2 i) := by
    rw [Finset.mem_biUnion]
    refine ⟨0, by decide, ?_⟩
    unfold anchorRange
    rw [show generate_anchor 1 (toString 0) 2 = (-1, 1295) from by decide, Finset.mem_Ico]
    constructor <;> norm_num
  rw [h, Finset.mem_Ico] at hmem
  exact absurd hmem.1 (by norm_num)

/-- C2 (amended): for every replica count ≥ 1 and fixed length, the half-open
ranges `[key_anchor, my_max)` returned by `generate_anchor` for indices
`0, …, count-1` are pairwise disjoint and their union is exactly the shifted
block `[-1, ID_SPACE * count - 1)` (which is `[-1, 36^length - 1)` when `count`
divides `36^length`) — each range is contiguous of size `ID_SPACE`, but the
whole union sits one below `[0, 36^length)` and, when `count` does not divide
`36^length`, also stops short of the top. -/
theorem C2_partition (count L : Nat) (hcount : 1 ≤ count) :
    (∀ i j : Nat, i < count → j < count → i ≠ j →
        Disjoint (anchorRange count L i) (anchorRange count L j))
    ∧ (Finset.range count).biUnion (fun i => anchorRange count L i)
        = Finset.Ico (-1 : Int) ((ID_SPACE count L : Int) * count - 1) :=
  ⟨anchorRange_disjoint count L, anchorRange_union count L count le_rfl⟩

/-- C2 (witness): the amended partition statement instantiated at
`count = 2`, `length = 1`. -/
theorem C2_partition_witness :
    Disjoint (anchorRange 2 1 0) (anchorRange 2 1 1)
    ∧ (Finset.range 2).biUnion (fun i => anchorRange 2 1 i)
        = Finset.Ico (-1 : Int) ((ID_SPACE 2 1 : Int) * 2 - 1) :=
  ⟨(C2_partition 2 1 (by norm_num)).1 0 1 (by norm_num) (by norm_num) (by norm_num),
   (C2_partition 2 1 (by norm_num)).2⟩

/-- C3: for any sequence of `generate_key()`/`delete_id()` calls on the
module's single-replica state (any pop choices, valid or not), the keys minted
along the fresh-integer (non-recycled) path are pairwise distinct — including
across expansions of the identifier length. -/
theorem C3_fresh_mints_distinct (ops : List Op) : ((runOps initState ops).2).Nodup :=
  (runOps_fresh_spec ops initState anchorInv_init).1

/-- C4: whenever the recycle pool `deleted_ids` is non-empty, `generate_key()`
returns one of its members and mints no fresh integer (cursor and length are
untouched); in particular, after `delete_id(k)` of an active key `k` from a
state whose pool was empty (no other pending released key), the very next
`generate_key()` returns `k`. -/
theorem C4_recycle_first (ch : Finset String → String) (s : AllocState) (k : String)
    (hch : validChoice ch) :
    (s.deleted_ids ≠ ∅ →
        (generate_key ch s).1 ∈ s.deleted_ids
        ∧ (generate_key ch s).2.key_anchor = s.key_anchor
        ∧ (generate_key ch s).2.KEY_LENGTH = s.KEY_LENGTH)
    ∧ (s.deleted_ids = ∅ → k ∈ s.active_ids →
        (generate_key ch (delete_id k s)).1 = k) := by
  constructor
  · intro hdel
    rw [generate_key_recycled ch s hdel]
    exact ⟨hch _ hdel, rfl, rfl⟩
  · intro hdel hmem
    have hdel' : (delete_id k s).deleted_ids = {k} := by
      rw [delete_id_mem k s hmem]
      show insert k s.deleted_ids = {k}
      rw [hdel]
      rfl
    have hne : (delete_id k s).deleted_ids ≠ ∅ := by
      rw [hdel']
      exact Finset.singleton_ne_empty k
    rw [generate_key_recycled ch (delete_id k s) hne]
    show ch (delete_id k s).deleted_ids = k
    rw [hdel']
    exact Finset.mem_singleton.mp (hch {k} (Finset.singleton_ne_empty k))

/-- C4 (witness): with the concrete pop choice `pickMin`, a state whose pool
holds `"ab"` hands back a pool member, and releasing the active key `"00"`
into an empty pool makes the very next call return `"00"`. -/
theorem C4_recycle_first_witness :
    (generate_key pickMin { initState with deleted_ids := {"ab"} }).1
        ∈ ({ initState with deleted_ids := {"ab"} } : AllocState).deleted_ids
    ∧ (generate_key pickMin (delete_id "00" { initState with active_ids := {"00"} })).1
        = "00" := by
  have h1 := C4_recycle_first pickMin { initState with deleted_ids := {"ab"} } "00" pickMin_valid
  have h2 := C4_recycle_first pickMin { initState with active_ids := {"00"} } "00" pickMin_valid
  exact ⟨(h1.1 (by decide)).1, h2.2 (by decide) (by decide)⟩

/-- C5 (counterexample): for `count = 4`, `length = 2`, replica index 2 the
partitioner returns `(647, 971)`, not the spec's
`(blockSize * index, blockSize * index + blockSize) = (648, 972)`. -/
theorem C5_counterexample :
    generate_anchor 4 "2" 2 = (647, 971)
    ∧ ComputeEpoch_spec 4 2 2 = (648, 972)
    ∧ generate_anchor 4 "2" 2 ≠ ComputeEpoch_spec 4 2 2 := by
  refine ⟨by decide, by decide, by decide⟩

/-- C5 (amended): the partitioner returns
`anchor = ID_SPACE * index - 1` and `limit = anchor + ID_SPACE` (one below the
spec's claimed `[ID_SPACE * index, ID_SPACE * (index + 1))`); for `count = 4`,
`length = 2` the replica of index 2 gets `(647, 971)` and its first minted key
is still the base-36, width-2 encoding of 648, namely `"i0"`. -/
theorem C5_anchor_formula (count i L : Nat) (hi : i < count) :
    generate_anchor count (toString i) L
      = ((ID_SPACE count L : Int) * i - 1,
         (ID_SPACE count L : Int) * i - 1 + (ID_SPACE count L : Int))
    ∧ (generate_key pickMin initStateReplica2of4).1 = encode 648 2
    ∧ encode 648 2 = "i0" :=
  ⟨generate_anchor_eq count i L hi, by decide, by decide⟩

/-- C5 (witness): the amended anchor formula instantiated at
`count = 4`, `index = 2`, `length = 2`. -/
theorem C5_anchor_formula_witness :
    generate_anchor 4 (toString 2) 2
      = ((ID_SPACE 4 2 : Int) * 2 - 1,
         (ID_SPACE 4 2 : Int) * 2 - 1 + (ID_SPACE 4 2 : Int)) :=
  (C5_anchor_formula 4 2 2 (by norm_num)).1

/-- C6: across any sequence of calls the identifier length never decreases;
one `generate_key()` call increases it by exactly 1 precisely when the recycle
pool is empty and the cursor has reached the block's end (`key_anchor ≥ MAX-1`),
and `delete_id` never changes it. -/
theorem C6_length_monotone (ch : Finset String → String) (s : AllocState) (k : String)
    (ops : List Op) :
    s.KEY_LENGTH ≤ (runOps s ops).1.KEY_LENGTH
    ∧ (generate_key ch s).2.KEY_LENGTH
        = (if s.deleted_ids = ∅ ∧ s.MAX - 1 ≤ s.key_anchor then s.KEY_LENGTH + 1
           else s.KEY_LENGTH)
    ∧ (delete_id k s).KEY_LENGTH = s.KEY_LENGTH :=
  ⟨KEY_LENGTH_runOps_mono ops s, KEY_LENGTH_alloc ch s, (delete_id_fields k s).2.2.1⟩

/-- C7 (counterexample): with `REPLICAS = 0`, or with a host suffix outside
`[0, count)`, `generate_anchor` silently returns the sentinel `(-1, 0)` and the
allocator still starts: the very first `generate_key()` call succeeds and
returns `"000"` — the configuration error is not fatal. -/
theorem C7_counterexample :
    generate_anchor 0 "0" 2 = (-1, 0)
    ∧ (generate_key pickMin initStateZeroReplicas).1 = "000"
    ∧ generate_anchor 2 "5" 2 = (-1, 0)
    ∧ (generate_key pickMin initStateBadIndex).1 = "000" :=
  ⟨by decide, by decide, by decide, by decide⟩

/-- C7 (amended): a replica whose host suffix matches no index in
`[0, REPLICAS)` (in particular `REPLICAS = 0`) gets the sentinel pair
`(-1, 0)` from `generate_anchor` instead of a fatal error, and `generate_key()`
still succeeds on such a state (expanding immediately and returning `"000"`). -/
theorem C7_no_fatal_config (count L : Nat) (host : String)
    (h : ∀ i < count, host ≠ toString i) :
    generate_anchor count host L = (-1, 0)
    ∧ (generate_key pickMin initStateZeroReplicas).1 = "000" :=
  ⟨generate_anchor_sentinel count L host h, by decide⟩

/-- C7 (witness): the amended statement instantiated at `count = 0`. -/
theorem C7_no_fatal_config_witness :
    generate_anchor 0 "9" 2 = (-1, 0)
    ∧ (generate_key pickMin initStateZeroReplicas).1 = "000" :=
  C7_no_fatal_config 0 2 "9" (fun i hi => absurd hi (Nat.not_lt_zero i))

/-- C8 (counterexample): the encoding in `generate_key` silently wraps values
outside `[0, 36^length)` instead of failing: 1296 at width 2 encodes to `"00"`,
exactly like 0. -/
theorem C8_counterexample :
    encode 1296 2 = "00" ∧ encode 1296 2 = encode 0 2 :=
  ⟨by decide, by decide⟩

/-- C8 (amended): `encode` never fails; it reduces its argument modulo
`36^length` (Python `%` semantics), so out-of-range values silently wrap. -/
theorem C8_encode_wraps (v : Int) (L : Nat) :
    encode v L = encode (v % (36 : Int) ^ L) L :=
  (encode_mod v L).symm

/-- C9: for every length `L ≥ 1` and value `v ∈ [0, 36^L)`, decoding the
fixed-width base-36 key minted for `v` yields `v` back; the codec is injective
on the representable range. -/
theorem C9_round_trip (L : Nat) (hL : 1 ≤ L) (v : Int) (h0 : 0 ≤ v)
    (h1 : v < (36 : Int) ^ L) : decode (encode v L) = v :=
  decode_encode v L h0 h1

/-- C9 (witness): the round trip at `L = 2`, `v = 648`. -/
theorem C9_round_trip_witness :
    (1 ≤ 2 ∧ (0 : Int) ≤ 648 ∧ (648 : Int) < (36 : Int) ^ 2)
    ∧ decode (encode 648 2) = 648 :=
  ⟨⟨by norm_num, by norm_num, by norm_num⟩,
   C9_round_trip 2 (by norm_num) 648 (by norm_num) (by norm_num)⟩

/-- C10: in every state reachable from the module state by `generate_key()` and
`delete_id()` calls, `active_ids` and `deleted_ids` are disjoint; moreover
`generate_key` inserts exactly the returned key into `active_ids` (erasing it
from `deleted_ids` on the recycled path) and `delete_id` moves a key from
`active_ids` to `deleted_ids` (doing nothing if it is not active). -/
theorem C10_active_deleted_disjoint (ops : List Op) (ch : Finset String → String)
    (k : String) (s : AllocState) :
    Disjoint (runOps initState ops).1.active_ids (runOps initState ops).1.deleted_ids
    ∧ (generate_key ch s).2.active_ids = insert (generate_key ch s).1 s.active_ids
    ∧ (s.deleted_ids ≠ ∅ →
        (generate_key ch s).2.deleted_ids = s.deleted_ids.erase (generate_key ch s).1)
    ∧ (delete_id k s).active_ids
        = (if k ∈ s.active_ids then s.active_ids.erase k else s.active_ids)
    ∧ (delete_id k s).deleted_ids
        = (if k ∈ s.active_ids then insert k s.deleted_ids else s.deleted_ids) := by
  refine ⟨runOps_disjoint ops initState (by simp [initState]),
      active_ids_alloc ch s, ?_, ?_, ?_⟩
  · intro hdel
    rw [generate_key_recycled ch s hdel]
  · by_cases hm : k ∈ s.active_ids
    · rw [delete_id_mem k s hm, if_pos hm]
    · rw [delete_id_not_mem k s hm, if_neg hm]
  · by_cases hm : k ∈ s.active_ids
    · rw [delete_id_mem k s hm, if_pos hm]
    · rw [delete_id_not_mem k s hm, if_neg hm]

/-- C10 (witness): the disjointness after a concrete allocate-release-allocate
run, and the recycled-path erase equation at a concrete one-element pool. -/
theorem C10_active_deleted_disjoint_witness :
    Disjoint (runOps initState [Op.alloc pickMin, Op.release "00", Op.alloc pickMin]).1.active_ids
      (runOps initState [Op.alloc pickMin, Op.release "00", Op.alloc pickMin]).1.deleted_ids
    ∧ (generate_key pickMin { initState with deleted_ids := {"ab"} }).2.deleted_ids
        = ({ initState with deleted_ids := {"ab"} } : AllocState).deleted_ids.erase
            (generate_key pickMin { initState with deleted_ids := {"ab"} }).1 := by
  have h := C10_active_deleted_disjoint [Op.alloc pickMin, Op.release "00", Op.alloc pickMin]
      pickMin "00" { initState with deleted_ids := {"ab"} }
  exact ⟨h.1, h.2.2.1 (by decide)⟩
